import Mathlib

/-!
Verification of the HitCraft Chat Analyzer core against its specification.

This file gives a shallow embedding, in Lean 4, of the parts of the
repository that the specification's testable properties talk about:

* `text_processor.py` — `chunk_by_size` and the thread-packing loop of
  `chunk_file`;
* `claude_analyzer.py` — `analyze_chunks`, `analyze_with_claude` (its
  api-key guard), `generate_mock_analysis` and `combine_results`;
* `thread_storage.py` — `get_unanalyzed_threads`, `mark_threads_as_analyzed`
  and `get_analysis_stats`.

Python strings are modelled as `List Char`, dicts as Lean structures,
ints as `Int`/`Nat` (the quantities involved never overflow in Python,
whose ints are arbitrary precision), floats as `ℚ` (no claim below
depends on binary rounding; where a float enters a comparison this is
flagged in a comment), and file-system state as explicit record values.
Network calls and the wall clock are abstracted as explicit function
parameters; every place where that happens is marked in a comment.
-/

/-! ### Python string helpers

`pyWS` is Python's default whitespace class restricted to ASCII
(`str.strip`, `\s` and `str.isspace` agree on these six characters;
the chat logs processed by the repository are ASCII-range text, and no
claim distinguishes further Unicode whitespace). -/

def pyWS (c : Char) : Bool :=
  c == ' ' || c == '\t' || c == '\n' || c == '\r' || c == '\x0b' || c == '\x0c'

/-- `beginsWith pat s` is true when `pat` is an initial segment of `s`
(the `s.startswith(pat)` test / literal regex match). -/
def beginsWith : List Char → List Char → Bool
  | [], _ => true
  | _ :: _, [] => false
  | a :: as, b :: bs => a == b && beginsWith as bs

/-- Search downwards from position `i` for the largest start position at
which `pat` occurs in `s`.  `rfindSub s pat = rfindFrom s pat s.length`
is Python's `s.rfind(pat)` (with `none` for `-1`); our patterns are
always non-empty. -/
def rfindFrom (s pat : List Char) : ℕ → Option ℕ
  | 0 => if beginsWith pat s then some 0 else none
  | i + 1 => if beginsWith pat (s.drop (i + 1)) then some (i + 1) else rfindFrom s pat i

def rfindSub (s pat : List Char) : Option ℕ :=
  rfindFrom s pat s.length

/-- Python's `str.strip()`: drop whitespace from both ends. -/
def pyStrip (s : List Char) : List Char :=
  ((s.dropWhile pyWS).reverse.dropWhile pyWS).reverse

/-! ### The message-boundary regexes of `chunk_by_size`

`text_processor.py` lines 140–146 list five regex patterns that are
searched with `re.finditer(marker, text[:max_size], re.DOTALL)`.  Each
is embedded below as a deterministic matcher
`List Char → Option ℕ` returning the length of the regex match anchored
at the head of the given suffix (or `none`), following the backtracking
semantics of `re`:

* in `\s*LIT` (`LIT` starting with a non-space character), the greedy
  `\s*` necessarily consumes the maximal whitespace run;
* in a trailing `\s*\n`, the greedy `\s*` ends the match just after the
  *last* newline inside the maximal whitespace run;
* in `\s+.*?\n` (with `DOTALL`), the engine first tries the maximal
  whitespace run for `\s+` and the *first* newline at or beyond it for
  `.*?\n`; if no newline exists beyond the run it backtracks `\s+`,
  which ends the match just after the last newline *inside* the run
  that leaves at least one character for `\s+`. -/

/-- Index of the last `'\n'` in `w` (all our uses have `w` a whitespace
run, mirroring the trailing `\s*\n` of a pattern). -/
def lastNL (w : List Char) : Option ℕ :=
  rfindSub w ['\n']

/-- Matcher for `\n\s*LIT\s*\n` (`LIT` is `User:` or `Assistant:`). -/
def matchLitNL (lit : List Char) : List Char → Option ℕ
  | '\n' :: rest =>
    let w := rest.takeWhile pyWS
    let r1 := rest.dropWhile pyWS
    if beginsWith lit r1 then
      let r2 := r1.drop lit.length
      let w2 := r2.takeWhile pyWS
      match lastNL w2 with
      | some j => some (1 + w.length + lit.length + j + 1)
      | none => none
    else none
  | _ => none

/-- First `'\n'` in `r` at an index `≥ k`. -/
def findNLFrom (r : List Char) (k : ℕ) : Option ℕ :=
  ((r.drop k).findIdx? (· == '\n')).map (· + k)

/-- Matcher for `\nLIT\s+.*?\n` under `re.DOTALL` (`LIT` is `From:` or
`To:`). -/
def matchLitLazyNL (lit : List Char) : List Char → Option ℕ
  | '\n' :: rest =>
    if beginsWith lit rest then
      let r := rest.drop lit.length
      let w := r.takeWhile pyWS
      if w.length = 0 then none
      else
        match findNLFrom r w.length with
        | some j => some (1 + lit.length + j + 1)
        | none =>
          match lastNL (w.drop 1) with
          | some j => some (1 + lit.length + (j + 1) + 1)
          | none => none
    else none
  | _ => none

/-- Matcher for `\n\d{2}/\d{2}/\d{4}\s+\d{2}:\d{2}:\d{2}\s*\n` (Python's
`\d` restricted to ASCII digits, which is all the chat logs contain). -/
def matchDate : List Char → Option ℕ
  | '\n' :: rest =>
    match rest with
    | d1 :: d2 :: s1 :: d3 :: d4 :: s2 :: y1 :: y2 :: y3 :: y4 :: r =>
      if d1.isDigit && d2.isDigit && s1 == '/' && d3.isDigit && d4.isDigit && s2 == '/'
          && y1.isDigit && y2.isDigit && y3.isDigit && y4.isDigit then
        let w := r.takeWhile pyWS
        if w.length = 0 then none
        else
          match r.drop w.length with
          | h1 :: h2 :: c1 :: m1 :: m2 :: c2 :: t1 :: t2 :: r3 =>
            if h1.isDigit && h2.isDigit && c1 == ':' && m1.isDigit && m2.isDigit
                && c2 == ':' && t1.isDigit && t2.isDigit then
              let w2 := r3.takeWhile pyWS
              match lastNL w2 with
              | some j => some (1 + 10 + w.length + 8 + j + 1)
              | none => none
            else none
          | _ => none
      else none
    | _ => none
  | _ => none

/-- `re.finditer` scan, keeping only the start of the most recent match:
scan left to right, at each position try the matcher; on a match record
its start and resume just past it, otherwise advance one character.
The fuel argument (always `length + 1` at the top) only serves
termination; no matcher of ours matches the empty suffix. -/
def lastStartAux (M : List Char → Option ℕ) : ℕ → ℕ → List Char → Option ℕ → Option ℕ
  | 0, _, _, acc => acc
  | fuel + 1, i, suffix, acc =>
    match M suffix with
    | some l => lastStartAux M fuel (i + max l 1) (suffix.drop (max l 1)) (some i)
    | none =>
      match suffix with
      | [] => acc
      | _ :: rest => lastStartAux M fuel (i + 1) rest acc

/-- `matches = list(re.finditer(marker, s, re.DOTALL)); matches[-1].start()`. -/
def lastMatchStart (M : List Char → Option ℕ) (s : List Char) : Option ℕ :=
  lastStartAux M (s.length + 1) 0 s none

/-- The five `message_markers` of `chunk_by_size`, in source order. -/
def msgMarkers : List (List Char → Option ℕ) :=
  [matchLitNL "User:".toList, matchLitNL "Assistant:".toList,
   matchLitLazyNL "From:".toList, matchLitLazyNL "To:".toList, matchDate]

/-- The `for marker in message_markers: ... break / else:` loop of
`chunk_by_size` (lines 148–157): the first marker that has a match in
the window whose last match starts beyond 60% of `max_size` wins; a
marker whose last match starts too early does *not* break the loop.
The float threshold `max_size * 0.6` is modelled as the exact rational
3/5; the claims below do not depend on which branch fires, so the
(at most one-integer-wide) float-rounding discrepancy at exact
multiples is immaterial. -/
def firstQual : List (List Char → Option ℕ) → List Char → ℕ → Option ℕ
  | [], _, _ => none
  | M :: Ms, w, m =>
    match lastMatchStart M w with
    | some s => if 3 * m < 5 * s then some s else firstQual Ms w m
    | none => firstQual Ms w m

/-! ### `chunk_by_size` (text_processor.py lines 118–180) -/

def endThreadMarker : List Char := "========== END THREAD ==========".toList

/-- Paragraph / line-break / hard-cut fallback (lines 160–177); the
thresholds `0.7` and `0.8` are modelled as 7/10 and 4/5. -/
def lineSplit (w : List Char) (m : ℕ) : ℕ :=
  match rfindSub w ['\n'] with
  | some l => if 4 * m < 5 * l then l else m
  | none => m

def afterThread (w : List Char) (m : ℕ) : ℕ :=
  match firstQual msgMarkers w m with
  | some s => s
  | none =>
    match rfindSub w ('\n' :: ['\n']) with
    | some p => if 7 * m < 10 * p then p else lineSplit w m
    | none => lineSplit w m

/-- The position at which one loop iteration of `chunk_by_size` cuts
`text`: thread-end marker beyond 50% of the window (the cut lands after
the 32-character marker), else a qualifying message marker, else a
paragraph break beyond 70%, else a newline beyond 80%, else exactly
`max_size`.  In every branch the iteration appends `text[:k]` to the
chunks and continues with `text[k:].strip()`. -/
def splitPoint (t : List Char) (m : ℕ) : ℕ :=
  let w := t.take m
  match rfindSub w endThreadMarker with
  | some pos => if m < 2 * pos then pos + endThreadMarker.length else afterThread w m
  | none => afterThread w m

/-- The `while text:` loop of `chunk_by_size`, with explicit fuel.
Called with fuel `text.length` (one cut consumes at least one character
whenever `max_size ≥ 1`, so that fuel is never exhausted; the source
loops forever on `max_size = 0` with non-empty text, a call that never
occurs — the repository always passes `MAX_CHUNK_SIZE = 100000`). -/
def chunkAux (m : ℕ) : ℕ → List Char → List (List Char)
  | fuel, t =>
    if t.isEmpty then []
    else if t.length ≤ m then [t]
    else
      match fuel with
      | 0 => []
      | fuel' + 1 =>
        t.take (splitPoint t m) :: chunkAux m fuel' (pyStrip (t.drop (splitPoint t m)))

/-- `chunk_by_size(text, max_size)`. -/
def chunk_by_size (t : List Char) (m : ℕ) : List (List Char) :=
  chunkAux m t.length t

/-! ### The thread-packing loop of `chunk_file` (lines 75–110)

The loop runs after the file's text has been split into a list of
thread segments; `thread_header` is the first regex match of the
`THREAD:` header pattern in the whole file text, recomputed (to the
same value) on every iteration, so it enters the model as a parameter.
Each segment is wrapped as
`f"{thread_header}{thread}\n========== END THREAD ==========\n\n"`,
greedily packed into `current_chunk`, flushing whenever the next
segment would overflow `MAX_CHUNK_SIZE`; an oversized single segment is
size-split on the spot. -/

def MAX_CHUNK_SIZE : ℕ := 100000

def threadSuffix : List Char := '\n' :: (endThreadMarker ++ ('\n' :: ['\n']))

def packThreads (header : List Char) : List (List Char) → List Char → List (List Char)
  | [], current => if current.isEmpty then [] else [current]
  | th :: rest, current =>
    let twh := header ++ th ++ threadSuffix
    if MAX_CHUNK_SIZE < current.length + twh.length then
      (if current.isEmpty then [] else [current]) ++
        (if MAX_CHUNK_SIZE < twh.length then
          chunk_by_size twh MAX_CHUNK_SIZE ++ packThreads header rest []
        else
          packThreads header rest twh)
    else
      packThreads header rest (current ++ twh)

/-- `chunk_file`'s thread-combining phase, starting from an empty
`current_chunk`. -/
def chunk_file_pack (header : List Char) (threads : List (List Char)) : List (List Char) :=
  packThreads header threads []

/-! ### Whitespace-interleaving (the corrected concatenation property) -/

/-- `WSOnly s`: every character of `s` is Python whitespace. -/
def WSOnly (s : List Char) : Prop := ∀ c ∈ s, pyWS c = true

/-- `GluesWS cs t`: `t` is exactly the chunks `cs`, in order, interleaved
with (possibly empty) whitespace-only gaps — the only characters of `t`
missing from `cs` are whitespace dropped by `strip()` at cut points. -/
def GluesWS : List (List Char) → List Char → Prop
  | [], t => WSOnly t
  | c :: cs, t => ∃ w r, WSOnly w ∧ t = w ++ c ++ r ∧ GluesWS cs r

/-! ### Lemmas about the chunker -/

theorem beginsWith_length {pat s : List Char} (h : beginsWith pat s = true) :
    pat.length ≤ s.length := by
  induction pat generalizing s with
  | nil => simp
  | cons a as ih =>
    cases s with
    | nil => simp [beginsWith] at h
    | cons b bs =>
      simp only [beginsWith, Bool.and_eq_true] at h
      simpa using ih h.2

theorem rfindFrom_begins {s pat : List Char} :
    ∀ {i j : ℕ}, rfindFrom s pat i = some j → beginsWith pat (s.drop j) = true := by
  intro i
  induction i with
  | zero =>
    intro j h
    simp only [rfindFrom] at h
    split at h
    · cases h; simpa using ‹beginsWith pat s = true›
    · cases h
  | succ i ih =>
    intro j h
    simp only [rfindFrom] at h
    split at h
    · cases h; assumption
    · exact ih h

theorem rfindSub_add_le {s pat : List Char} {j : ℕ} (hpat : pat ≠ [])
    (h : rfindSub s pat = some j) : j + pat.length ≤ s.length := by
  have hb := rfindFrom_begins h
  have hlen := beginsWith_length hb
  rw [List.length_drop] at hlen
  have hpos : 0 < pat.length := List.length_pos.mpr hpat
  omega

theorem lastStartAux_lt {M : List Char → Option ℕ} (hM : M [] = none) {n : ℕ} :
    ∀ (fuel i : ℕ) (suffix : List Char) (acc : Option ℕ),
      (i + suffix.length = n ∨ suffix = []) →
      (∀ j, acc = some j → j < n) →
      ∀ j, lastStartAux M fuel i suffix acc = some j → j < n := by
  intro fuel
  induction fuel with
  | zero => intro i suffix acc _ hacc j h; exact hacc j h
  | succ fuel ih =>
    intro i suffix acc hinv hacc j h
    simp only [lastStartAux] at h
    cases hMs : M suffix with
    | some l =>
      rw [hMs] at h
      simp only at h
      have hsufne : suffix ≠ [] := by
        intro he; rw [he, hM] at hMs; cases hMs
      have hi : i + suffix.length = n := hinv.resolve_right hsufne
      have hsuflen : 1 ≤ suffix.length := by
        cases suffix with
        | nil => exact absurd rfl hsufne
        | cons a l' => simp
      refine ih (i + max l 1) (suffix.drop (max l 1)) (some i) ?_ ?_ j h
      · by_cases hc : max l 1 ≤ suffix.length
        · left; rw [List.length_drop]; omega
        · right
          exact List.eq_nil_of_length_eq_zero (by rw [List.length_drop]; omega)
      · intro j' hj'; cases hj'; omega
    | none =>
      rw [hMs] at h
      simp only at h
      cases suffix with
      | nil => exact hacc j h
      | cons a rest =>
        refine ih (i + 1) rest acc ?_ hacc j h
        rcases hinv with h' | h'
        · left; simp only [List.length_cons] at h'; omega
        · cases h'

theorem lastMatchStart_lt {M : List Char → Option ℕ} (hM : M [] = none)
    {s : List Char} {j : ℕ} (h : lastMatchStart M s = some j) : j < s.length := by
  refine lastStartAux_lt hM (s.length + 1) 0 s none (Or.inl (by omega)) ?_ j h
  intro j' hj'; cases hj'

theorem firstQual_lt {Ms : List (List Char → Option ℕ)} {w : List Char} {m s : ℕ}
    (hMs : ∀ M ∈ Ms, M [] = none) (h : firstQual Ms w m = some s) : s < w.length := by
  induction Ms with
  | nil => simp [firstQual] at h
  | cons M Ms ih =>
    simp only [firstQual] at h
    cases hL : lastMatchStart M w with
    | some s' =>
      rw [hL] at h
      simp only at h
      split at h
      · cases h
        exact lastMatchStart_lt (hMs M (by simp)) hL
      · exact ih (fun M' hM' => hMs M' (by simp [hM'])) h
    | none =>
      rw [hL] at h
      simp only at h
      exact ih (fun M' hM' => hMs M' (by simp [hM'])) h

theorem firstQual_qual {Ms : List (List Char → Option ℕ)} {w : List Char} {m s : ℕ}
    (h : firstQual Ms w m = some s) : 3 * m < 5 * s := by
  induction Ms with
  | nil => simp [firstQual] at h
  | cons M Ms ih =>
    simp only [firstQual] at h
    cases hL : lastMatchStart M w with
    | some s' =>
      rw [hL] at h
      simp only at h
      split at h
      · cases h; assumption
      · exact ih h
    | none =>
      rw [hL] at h
      simp only at h
      exact ih h

theorem msgMarkers_nil_none : ∀ M ∈ msgMarkers, M [] = none := by
  intro M hM
  simp only [msgMarkers, List.mem_cons, List.not_mem_nil, or_false] at hM
  rcases hM with rfl | rfl | rfl | rfl | rfl <;> rfl

theorem lineSplit_le {w : List Char} {m : ℕ} (hw : w.length ≤ m) : lineSplit w m ≤ m := by
  rw [lineSplit]
  split
  · rename_i l heq
    have := rfindSub_add_le (by simp) heq
    simp only [List.length_cons, List.length_nil] at this
    split <;> omega
  · omega

theorem afterThread_le {w : List Char} {m : ℕ} (hw : w.length ≤ m) : afterThread w m ≤ m := by
  rw [afterThread]
  split
  · rename_i s heq
    have := firstQual_lt msgMarkers_nil_none heq
    omega
  · split
    · rename_i p heq
      have := rfindSub_add_le (by simp) heq
      simp only [List.length_cons, List.length_nil] at this
      split
      · omega
      · exact lineSplit_le hw
    · exact lineSplit_le hw

theorem splitPoint_le (t : List Char) (m : ℕ) : splitPoint t m ≤ m := by
  rw [splitPoint]
  have hw : (t.take m).length ≤ m := by
    rw [List.length_take]; omega
  split
  · rename_i pos heq
    have hmarker : endThreadMarker ≠ [] := by decide
    have h32 : endThreadMarker.length = 32 := by decide
    have := rfindSub_add_le hmarker heq
    split
    · omega
    · exact afterThread_le hw
  · exact afterThread_le hw

theorem afterThread_pos {w : List Char} {m : ℕ} (hm : 1 ≤ m) : 1 ≤ afterThread w m := by
  have hline : 1 ≤ lineSplit w m := by
    rw [lineSplit]
    split
    · split <;> omega
    · omega
  rw [afterThread]
  split
  · rename_i s heq
    have := firstQual_qual heq
    omega
  · split
    · split
      · omega
      · exact hline
    · exact hline

theorem splitPoint_pos (t : List Char) {m : ℕ} (hm : 1 ≤ m) : 1 ≤ splitPoint t m := by
  rw [splitPoint]
  split
  · split
    · omega
    · exact afterThread_pos hm
  · exact afterThread_pos hm

theorem chunkAux_mem_length (m : ℕ) :
    ∀ (fuel : ℕ) (t c : List Char), c ∈ chunkAux m fuel t → c.length ≤ m := by
  intro fuel
  induction fuel with
  | zero =>
    intro t c hc
    rw [chunkAux] at hc
    split at hc
    · cases hc
    · split at hc
      · rw [List.mem_singleton] at hc; subst hc; assumption
      · cases hc
  | succ fuel ih =>
    intro t c hc
    rw [chunkAux] at hc
    split at hc
    · cases hc
    · split at hc
      · rw [List.mem_singleton] at hc; subst hc; assumption
      · rw [List.mem_cons] at hc
        rcases hc with rfl | hc
        · rw [List.length_take]
          have := splitPoint_le t m
          omega
        · exact ih _ _ hc

theorem chunk_by_size_mem_length {t c : List Char} {m : ℕ}
    (hc : c ∈ chunk_by_size t m) : c.length ≤ m :=
  chunkAux_mem_length m t.length t c hc

theorem packThreads_mem_length (header : List Char) :
    ∀ (threads : List (List Char)) (current c : List Char),
      current.length ≤ MAX_CHUNK_SIZE → c ∈ packThreads header threads current →
      c.length ≤ MAX_CHUNK_SIZE := by
  intro threads
  induction threads with
  | nil =>
    intro current c hcur hc
    rw [packThreads] at hc
    split at hc
    · cases hc
    · rw [List.mem_singleton] at hc; subst hc; exact hcur
  | cons th rest ih =>
    intro current c hcur hc
    rw [packThreads] at hc
    split at hc
    · rw [List.mem_append] at hc
      rcases hc with hc | hc
      · split at hc
        · cases hc
        · rw [List.mem_singleton] at hc; subst hc; exact hcur
      · split at hc
        · rw [List.mem_append] at hc
          rcases hc with hc | hc
          · exact chunk_by_size_mem_length hc
          · exact ih [] c (by simp [MAX_CHUNK_SIZE]) hc
        · rename_i hover hsmall
          exact ih _ c (by omega) hc
    · rename_i hfit
      refine ih _ c ?_ hc
      simp only [List.length_append] at hfit ⊢
      omega

/-! ### Whitespace decomposition of `strip()` -/

theorem mem_takeWhile_ws {p : Char → Bool} :
    ∀ (l : List Char) (x : Char), x ∈ l.takeWhile p → p x = true := by
  intro l
  induction l with
  | nil => intro x hx; simp [List.takeWhile] at hx
  | cons a l ih =>
    intro x hx
    rw [List.takeWhile] at hx
    cases hpa : p a with
    | true =>
      rw [hpa] at hx
      simp only [List.mem_cons] at hx
      rcases hx with rfl | hx
      · exact hpa
      · exact ih x hx
    | false => rw [hpa] at hx; cases hx

theorem pyStrip_decomp (s : List Char) :
    ∃ a b, WSOnly a ∧ WSOnly b ∧ s = a ++ pyStrip s ++ b := by
  refine ⟨s.takeWhile pyWS, ((s.dropWhile pyWS).reverse.takeWhile pyWS).reverse, ?_, ?_, ?_⟩
  · intro c hc; exact mem_takeWhile_ws s c hc
  · intro c hc
    rw [List.mem_reverse] at hc
    exact mem_takeWhile_ws _ c hc
  · rw [pyStrip]
    conv_lhs => rw [← List.takeWhile_append_dropWhile (p := pyWS) (l := s)]
    rw [List.append_assoc]
    congr 1
    conv_lhs => rw [← List.reverse_reverse (s.dropWhile pyWS)]
    conv_lhs =>
      rw [← List.takeWhile_append_dropWhile (p := pyWS) (l := (s.dropWhile pyWS).reverse)]
    rw [List.reverse_append]

theorem pyStrip_length_le (s : List Char) : (pyStrip s).length ≤ s.length := by
  obtain ⟨a, b, -, -, hs⟩ := pyStrip_decomp s
  conv_rhs => rw [hs]
  simp only [List.length_append]
  omega

theorem wsOnly_nil : WSOnly [] := by
  intro c hc
  cases hc

theorem gluesWS_nil : GluesWS [] [] := wsOnly_nil

theorem gluesWS_append_ws {b : List Char} (hb : WSOnly b) :
    ∀ {cs : List (List Char)} {r : List Char}, GluesWS cs r → GluesWS cs (r ++ b) := by
  intro cs
  induction cs with
  | nil =>
    intro r hr c hc
    rw [List.mem_append] at hc
    rcases hc with hc | hc
    · exact hr c hc
    · exact hb c hc
  | cons c cs ih =>
    intro r hr
    obtain ⟨w, r', hw, rfl, hrest⟩ := hr
    exact ⟨w, r' ++ b, hw, by simp, ih hrest⟩

theorem gluesWS_ws_front {a : List Char} (ha : WSOnly a)
    {cs : List (List Char)} {s : List Char} (hs : GluesWS cs s) : GluesWS cs (a ++ s) := by
  cases cs with
  | nil =>
    intro c hc
    rw [List.mem_append] at hc
    rcases hc with hc | hc
    · exact ha c hc
    · exact hs c hc
  | cons c cs =>
    obtain ⟨w, r, hw, rfl, hrest⟩ := hs
    refine ⟨a ++ w, r, ?_, by simp, hrest⟩
    intro x hx
    rw [List.mem_append] at hx
    rcases hx with hx | hx
    · exact ha x hx
    · exact hw x hx

theorem gluesWS_pyStrip {cs : List (List Char)} (s : List Char)
    (h : GluesWS cs (pyStrip s)) : GluesWS cs s := by
  obtain ⟨a, b, ha, hb, hdec⟩ := pyStrip_decomp s
  rw [hdec, List.append_assoc]
  exact gluesWS_ws_front ha (gluesWS_append_ws hb h)

theorem chunkAux_gluesWS {m : ℕ} (hm : 1 ≤ m) :
    ∀ (fuel : ℕ) (t : List Char), t.length ≤ fuel → GluesWS (chunkAux m fuel t) t := by
  intro fuel
  induction fuel with
  | zero =>
    intro t hlen
    have : t = [] := List.eq_nil_of_length_eq_zero (by omega)
    subst this
    rw [chunkAux]
    simp only [List.isEmpty_nil, if_true]
    intro c hc; cases hc
  | succ fuel ih =>
    intro t hlen
    rw [chunkAux]
    split
    · rename_i hemp
      rw [List.isEmpty_iff] at hemp
      subst hemp
      intro c hc; cases hc
    · split
      · exact ⟨[], [], wsOnly_nil, by simp, gluesWS_nil⟩
      · rename_i hemp hlong
        have hk1 : 1 ≤ splitPoint t m := splitPoint_pos t hm
        have hlent : m < t.length := by omega
        have hdrop : (t.drop (splitPoint t m)).length = t.length - splitPoint t m :=
          List.length_drop _ _
        have hrec : (pyStrip (t.drop (splitPoint t m))).length ≤ fuel := by
          have := pyStrip_length_le (t.drop (splitPoint t m))
          omega
        have hglue := ih (pyStrip (t.drop (splitPoint t m))) hrec
        exact ⟨[], t.drop (splitPoint t m), wsOnly_nil, by simp,
          gluesWS_pyStrip _ hglue⟩

/-! ### Claims C1–C3 -/

/-- Claim C1: every chunk returned by the chunking operation has length at
most `max_size`.  In fact the code never produces an over-long chunk at
all — even an oversized atomic thread segment is size-split by
`chunk_by_size` — so the permitted exception of the claim is never
exercised: the bound holds for `chunk_by_size` at every `max_size`, and
for the thread-packing phase of `chunk_file` at its fixed budget
`MAX_CHUNK_SIZE`. -/
theorem claim_C1_chunk_size_bound :
    (∀ (t : List Char) (m : ℕ), ∀ c ∈ chunk_by_size t m, c.length ≤ m) ∧
    (∀ (header : List Char) (threads : List (List Char)),
      ∀ c ∈ chunk_file_pack header threads, c.length ≤ MAX_CHUNK_SIZE) := by
  constructor
  · intro t m c hc
    exact chunk_by_size_mem_length hc
  · intro header threads c hc
    exact packThreads_mem_length header threads [] c (by simp [MAX_CHUNK_SIZE]) hc

/-- Witness for C1 at concrete inputs. -/
theorem claim_C1_witness :
    ("abcd".toList ∈ chunk_by_size "abcd efg".toList 4 ∧ "abcd".toList.length ≤ 4) ∧
    ("hi\n========== END THREAD ==========\n\n".toList ∈
        chunk_file_pack [] ["hi".toList] ∧
      "hi\n========== END THREAD ==========\n\n".toList.length ≤ MAX_CHUNK_SIZE) := by
  refine ⟨⟨?_, ?_⟩, ⟨?_, ?_⟩⟩
  · decide
  · exact claim_C1_chunk_size_bound.1 "abcd efg".toList 4 "abcd".toList (by decide)
  · decide
  · exact claim_C1_chunk_size_bound.2 [] ["hi".toList]
      "hi\n========== END THREAD ==========\n\n".toList (by decide)

/-- Claim C2 counterexample: `chunk_by_size("abcd efg", 4)` yields
`["abcd", "efg"]` — the space at the cut point is removed by the
`.strip()` on the remainder, so concatenating the chunks does not
reproduce the original text. -/
theorem claim_C2_counterexample :
    chunk_by_size "abcd efg".toList 4 = ["abcd".toList, "efg".toList] ∧
    (chunk_by_size "abcd efg".toList 4).flatten ≠ "abcd efg".toList := by
  constructor
  · decide
  · decide

/-- Claim C2 as amended: concatenating the chunks of `chunk_by_size`
reproduces the original text *up to whitespace*: the original text is
exactly the returned chunks, in order, interleaved with (possibly
empty) whitespace-only gaps — the characters dropped by the `.strip()`
applied to the remainder at every cut.  No non-whitespace character is
dropped and none is duplicated.  (Hypothesis `1 ≤ max_size`: with
`max_size = 0` the source loop never terminates; the repository always
calls with `max_size = 100000`.) -/
theorem claim_C2_amended_ws_interleaving (t : List Char) (m : ℕ) (hm : 1 ≤ m) :
    GluesWS (chunk_by_size t m) t :=
  chunkAux_gluesWS hm t.length t le_rfl

/-- Witness for the amended C2 at a concrete input. -/
theorem claim_C2_witness :
    1 ≤ 4 ∧ GluesWS (chunk_by_size "abcd efg".toList 4) "abcd efg".toList :=
  ⟨by decide, claim_C2_amended_ws_interleaving "abcd efg".toList 4 (by decide)⟩

/-- Claim C3 counterexample: on the empty text `chunk_by_size` returns
the empty list (`while text:` is immediately false), not a single chunk
equal to the input — the spec itself records this edge case. -/
theorem claim_C3_counterexample :
    chunk_by_size [] 5 = [] ∧ chunk_by_size [] 5 ≠ [([] : List Char)] := by
  constructor
  · rfl
  · decide

/-- Claim C3 as amended: for every *non-empty* text whose length is at
most `max_size`, `chunk_by_size` returns exactly one chunk equal to
the input text; for the empty text it returns the empty list. -/
theorem claim_C3_amended_single_chunk (t : List Char) (m : ℕ) (hne : t ≠ [])
    (hlen : t.length ≤ m) : chunk_by_size t m = [t] := by
  rw [chunk_by_size, chunkAux.eq_def]
  dsimp only
  rw [if_neg (by simpa using hne), if_pos hlen]

/-- Witness for the amended C3 at a concrete input. -/
theorem claim_C3_witness :
    ("ab".toList ≠ [] ∧ "ab".toList.length ≤ 5) ∧
      chunk_by_size "ab".toList 5 = ["ab".toList] :=
  ⟨⟨by decide, by decide⟩,
    claim_C3_amended_single_chunk "ab".toList 5 (by decide) (by decide)⟩

/-! ### `claude_analyzer.py` — data model

`combine_results` and `analyze_chunks` treat the per-chunk analysis
dicts generically.  The model below keeps exactly the fields and the
dynamism these claims exercise:

* a `top_discussions` entry is either a dict with a `"topic"` key
  (whose `"count"` may be absent — `Option Int`, Python ints are exact)
  or a plain string; its `"instances"` array is never read or written
  by any modelled operation, so it is carried as an opaque payload,
  recorded by its length only;
* `response_quality`: the dict form, with the optional `"score"` /
  `"average_score"` numeric sub-fields as `Option ℚ` (floats; no claim
  depends on binary rounding) and the example lists.  The rare
  bare-number form of the field, and the dict-without-`"topic"` topic
  form, are not exercised by any claim and are left out;
* good/poor examples and `key_insights` items are compared only for
  (dict) equality and capped; they are modelled as opaque strings;
* the remaining result fields (`improvement_areas`, `user_satisfaction`,
  `unmet_needs`, `product_effectiveness`, `negative_chats`) follow the
  same union-without-duplicates shape and are referenced by no claim;
  they are omitted from the record;
* `error := true` models presence of an `"error"` key. -/

inductive Topic where
  | obj (topic : String) (count : Option Int) (instances : ℕ)
  | str (s : String)
deriving DecidableEq

structure RQ where
  score : Option ℚ
  average_score : Option ℚ
  good_examples : List String
  poor_examples : List String
deriving DecidableEq

structure AnalysisResult where
  error : Bool
  categories : Option (List String)
  top_discussions : Option (List Topic)
  response_quality : Option RQ
  key_insights : Option (List String)
deriving DecidableEq

/-- `generate_mock_analysis()` (claude_analyzer.py lines 73–286),
restricted to the modelled fields; the `instances` payloads are
recorded by their lengths (3, 2, 2, 2, 2 excerpt dicts), insights by
their `"insight"` sentence. -/
def generate_mock_analysis : AnalysisResult where
  error := false
  categories := some
    ["Music Production Assistance", "Songwriting Help", "Music Theory Questions",
     "Licensing & Copyright", "Music Business", "Genre Exploration"]
  top_discussions := some
    [.obj "Song Structure Development" (some 8) 3,
     .obj "Genre Transformation" (some 7) 2,
     .obj "Lyric Writing" (some 6) 2,
     .obj "Production References" (some 5) 2,
     .obj "Music Licensing" (some 4) 2]
  response_quality := some
    { score := none
      average_score := some (17 / 2)
      good_examples :=
        ["In response to a user request for music licensing information, the assistant provided a comprehensive breakdown of different types of licenses, why they\x27re important, and next steps.",
         "When asked about songwriting, the assistant provided personalized lyric suggestions and offered clear next steps for refining them.",
         "The assistant effectively guided a user through choosing a production reference, asking clarifying questions to better understand their needs."]
      poor_examples :=
        ["In one conversation, the assistant seemed confused by a request for specific drum patterns and provided overly generic advice.",
         "When faced with a request in a non-English language, the assistant responded in English without acknowledging the language difference."] }
  key_insights := some
    ["Users most frequently seek help with song structure and genre transformation, suggesting these are challenging areas for musicians.",
     "The conversational format works well for songwriting assistance, where an iterative approach helps users refine their ideas.",
     "Users appreciate personalized feedback but want more technical depth in production guidance.",
     "There\x27s significant interest in music business topics like licensing and copyright, indicating users are concerned about the business side of their music.",
     "The ability to process and provide feedback on uploaded music is highly valued by users."]

/-! ### `analyze_chunks` and `analyze_with_claude` (lines 11–71, 288–312)

The network call, JSON extraction and normalization performed by
`analyze_with_claude` after its api-key guard are abstracted as an
explicit function parameter (`svc` / `net`): the claims below only
exercise the paths that run *before* any network activity (the mock
shortcut and the missing-key paths).  The per-chunk `try/except` of the
loop and the rate-limit `time.sleep(1)` concern exceptions and real
time of the abstracted call and have no observable effect in the model.
A `none` / `""` api key models Python's falsy `None` / empty string. -/

def analyze_chunks (svc : String → AnalysisResult) (chunks : List String)
    (api_key : Option String) (use_mock : Bool) (max_chunks : Option Int) :
    Except String (List AnalysisResult) :=
  if use_mock then
    .ok [generate_mock_analysis]
  else if api_key.getD "" = "" then
    .error "Claude API key is required when not using mock mode"
  else
    let chunks_to_analyze :=
      match max_chunks with
      | some mc => if 0 < mc then chunks.take mc.toNat else chunks
      | none => chunks
    .ok (chunks_to_analyze.map svc)

def analyze_with_claude (net : String → String → AnalysisResult)
    (text : String) (api_key : Option String) : AnalysisResult :=
  if api_key.getD "" = "" then generate_mock_analysis
  else net text (api_key.getD "")

/-! ### `combine_results` (lines 679–886) -/

/-- The `{"error": "No analysis results to combine"}` dict returned for
an empty result list: an error key and nothing else. -/
def errResult : AnalysisResult :=
  { error := true, categories := none, top_discussions := none,
    response_quality := none, key_insights := none }

/-- `next((t for t in combined if isinstance(t, dict) and t.get("topic") == name), None)`
followed by the in-place `existing["count"] = existing.get("count", 0) + add`:
bump the first dict entry with the given topic. -/
def bumpFirst (name : String) (add : Int) : List Topic → List Topic
  | [] => []
  | .obj n c i :: xs =>
    if n = name then .obj n (some (c.getD 0 + add)) i :: xs
    else .obj n c i :: bumpFirst name add xs
  | .str s :: xs => .str s :: bumpFirst name add xs

def hasTopicKey (name : String) : Topic → Bool
  | .obj n _ _ => n == name
  | .str _ => false

/-- One step of the `for topic in result["top_discussions"]` loop
(lines 744–757): a dict topic merges into the first existing entry with
the same topic (summing counts, `topic.get("count", 1)` as the
increment) or is appended; a non-dict topic is appended unless already
present. -/
def addTopic (acc : List Topic) (t : Topic) : List Topic :=
  match t with
  | .obj name cnt inst =>
    if acc.any (hasTopicKey name) then bumpFirst name (cnt.getD 1) acc
    else acc ++ [.obj name cnt inst]
  | .str s => if .str s ∈ acc then acc else acc ++ [.str s]

/-- `isinstance(t, dict) and "count" in t`. -/
def hasCount : Topic → Bool
  | .obj _ c _ => c.isSome
  | .str _ => false

/-- The sort key `lambda x: x.get("count", 0)`. -/
def countD : Topic → Int
  | .obj _ c _ => c.getD 0
  | .str _ => 0

/-- Descending-by-count order used for `sorted(..., reverse=True)`. -/
def topicGE (a b : Topic) : Prop := countD b ≤ countD a

instance : DecidableRel topicGE := fun a b => inferInstanceAs (Decidable (countD b ≤ countD a))

/-- Running state of the aggregation loop of `combine_results`; the
`quality_scores` accumulator is `scores` (the loop's `chunk_count` is
incremented but never read and is dropped). -/
structure CombineState where
  categories : List String
  top : List Topic
  scores : List ℚ
  good : List String
  poor : List String
  insights : List String

/-- One iteration of `for result in results:` (lines 731–862), for the
modelled fields: results carrying an `"error"` key are skipped; each
list field extends with the members not already present (the filter is
evaluated against the state *before* extending, exactly as the Python
list comprehension is); a `"score"` sub-field takes priority over
`"average_score"` for the quality accumulator. -/
def processResult (st : CombineState) (r : AnalysisResult) : CombineState :=
  if r.error then st
  else
    { categories := st.categories ++ (r.categories.getD []).filter (¬ st.categories.contains ·),
      top := (r.top_discussions.getD []).foldl addTopic st.top,
      scores := st.scores ++
        (match r.response_quality with
         | some rq =>
           match rq.score with
           | some s => [s]
           | none =>
             match rq.average_score with
             | some a => [a]
             | none => []
         | none => []),
      good := st.good ++
        (match r.response_quality with
         | some rq => rq.good_examples.filter (¬ st.good.contains ·)
         | none => []),
      poor := st.poor ++
        (match r.response_quality with
         | some rq => rq.poor_examples.filter (¬ st.poor.contains ·)
         | none => []),
      insights := st.insights ++ (r.key_insights.getD []).filter (¬ st.insights.contains ·) }

/-- The aggregation path of `combine_results`: fold the results into the
initial empty `combined` dict, average the collected quality scores
(`sum/len`, kept at the initial `0` when no scores were collected),
sort `top_discussions` descending by count when *every* entry is a dict
carrying a count (Python's `sorted` is stable, and a stable sort is
uniquely determined, so `List.insertionSort` reproduces it), then apply
the caps: top 5 discussions, 3 good/poor examples, 5 key insights. -/
def mainCombine (results : List AnalysisResult) : AnalysisResult :=
  let st := results.foldl processResult ⟨[], [], [], [], [], []⟩
  let avg : ℚ := if st.scores.isEmpty then 0 else st.scores.sum / st.scores.length
  let sortedTop := if st.top.all hasCount then st.top.insertionSort topicGE else st.top
  { error := false,
    categories := some st.categories,
    top_discussions := some (sortedTop.take 5),
    response_quality := some
      { score := none, average_score := some avg,
        good_examples := st.good.take 3, poor_examples := st.poor.take 3 },
    key_insights := some (st.insights.take 5) }

/-- `combine_results(results)` (lines 679–886): empty input returns the
error dict; a singleton whose `categories` field exists and has at
least 5 entries is returned unchanged (the "likely mock data"
shortcut of lines 692–697); everything else goes through the
aggregation path. -/
def combine_results (results : List AnalysisResult) : AnalysisResult :=
  match results with
  | [] => errResult
  | [r] =>
    match r.categories with
    | some cs => if 5 ≤ cs.length then r else mainCombine [r]
    | none => mainCombine [r]
  | rs => mainCombine rs

/-! ### Lemmas about `combine_results` -/

instance : IsTotal Topic topicGE := ⟨fun a b => le_total (countD b) (countD a)⟩

instance : IsTrans Topic topicGE := ⟨fun _ _ _ hab hbc => le_trans hbc hab⟩

theorem bumpFirst_hasCount {name : String} {add : Int} :
    ∀ {acc : List Topic}, (∀ x ∈ acc, hasCount x = true) →
      ∀ x ∈ bumpFirst name add acc, hasCount x = true := by
  intro acc
  induction acc with
  | nil => intro _ x hx; cases hx
  | cons a as ih =>
    intro hacc x hx
    have hhead : hasCount a = true := hacc a (by simp)
    have htail : ∀ y ∈ as, hasCount y = true := fun y hy => hacc y (by simp [hy])
    cases a with
    | obj n c i =>
      rw [bumpFirst] at hx
      split at hx
      · rw [List.mem_cons] at hx
        rcases hx with rfl | hx
        · rfl
        · exact htail _ hx
      · rw [List.mem_cons] at hx
        rcases hx with rfl | hx
        · exact hhead
        · exact ih htail _ hx
    | str s =>
      rw [bumpFirst, List.mem_cons] at hx
      rcases hx with rfl | hx
      · exact hhead
      · exact ih htail _ hx

theorem addTopic_hasCount {acc : List Topic} {t : Topic}
    (hacc : ∀ x ∈ acc, hasCount x = true) (ht : hasCount t = true) :
    ∀ x ∈ addTopic acc t, hasCount x = true := by
  intro x hx
  cases t with
  | obj name cnt inst =>
    rw [addTopic] at hx
    split at hx
    · exact bumpFirst_hasCount hacc x hx
    · rw [List.mem_append] at hx
      rcases hx with hx | hx
      · exact hacc x hx
      · rw [List.mem_singleton] at hx; subst hx; exact ht
  | str s => simp [hasCount] at ht

theorem foldl_addTopic_hasCount :
    ∀ (ts : List Topic) (acc : List Topic), (∀ x ∈ acc, hasCount x = true) →
      (∀ t ∈ ts, hasCount t = true) → ∀ x ∈ ts.foldl addTopic acc, hasCount x = true := by
  intro ts
  induction ts with
  | nil => intro acc hacc _ x hx; exact hacc x hx
  | cons t ts ih =>
    intro acc hacc hts x hx
    rw [List.foldl_cons] at hx
    exact ih (addTopic acc t)
      (addTopic_hasCount hacc (hts t (by simp)))
      (fun u hu => hts u (by simp [hu])) x hx

theorem foldl_processResult_top_hasCount :
    ∀ (results : List AnalysisResult) (s0 : CombineState),
      (∀ x ∈ s0.top, hasCount x = true) →
      (∀ r ∈ results, r.error = false →
        ∀ t ∈ r.top_discussions.getD [], hasCount t = true) →
      ∀ x ∈ (results.foldl processResult s0).top, hasCount x = true := by
  intro results
  induction results with
  | nil => intro s0 h0 _ x hx; exact h0 x hx
  | cons r rs ih =>
    intro s0 h0 hres x hx
    rw [List.foldl_cons] at hx
    refine ih (processResult s0 r) ?_ (fun r' hr' => hres r' (by simp [hr'])) x hx
    intro y hy
    rw [processResult] at hy
    split at hy
    · exact h0 y hy
    · rename_i herr
      rw [Bool.not_eq_true] at herr
      exact foldl_addTopic_hasCount _ _ h0 (hres r (by simp) herr) y hy

theorem mainCombine_top_spec (results : List AnalysisResult) :
    ((mainCombine results).top_discussions.getD []).length ≤ 5 ∧
    ((∀ r ∈ results, r.error = false →
        ∀ t ∈ r.top_discussions.getD [], hasCount t = true) →
      List.Sorted topicGE ((mainCombine results).top_discussions.getD [])) := by
  rw [mainCombine]
  constructor
  · simp only [Option.getD_some]
    rw [List.length_take]
    omega
  · intro hres
    simp only [Option.getD_some]
    have hall : (results.foldl processResult ⟨[], [], [], [], [], []⟩).top.all hasCount = true := by
      rw [List.all_eq_true]
      exact foldl_processResult_top_hasCount results _ (by intro x hx; cases hx) hres
    rw [if_pos hall]
    exact List.Pairwise.sublist (List.take_sublist 5 _)
      (List.sorted_insertionSort topicGE _)

theorem combine_results_nil : combine_results [] = errResult := rfl

theorem combine_results_singleton (r : AnalysisResult) :
    combine_results [r] =
      (match r.categories with
       | some cs => if 5 ≤ cs.length then r else mainCombine [r]
       | none => mainCombine [r]) := rfl

theorem combine_results_cons2 (r1 r2 : AnalysisResult) (rs : List AnalysisResult) :
    combine_results (r1 :: r2 :: rs) = mainCombine (r1 :: r2 :: rs) := rfl

/-- Condition under which `combine_results` takes the aggregation path
rather than the lines 692–697 single-result shortcut. -/
def TakesMainPath : List AnalysisResult → Prop
  | [r] => ∀ cs, r.categories = some cs → cs.length < 5
  | _ => True

/-! ### Claims C4–C6 and C10 -/

/-- Concrete input for the C4 counterexample: a single result whose
`categories` has 5 entries (triggering the return-unchanged shortcut)
and whose `top_discussions` holds two entries with the same topic. -/
def c4ex : AnalysisResult :=
  { error := false, categories := some ["a", "b", "c", "d", "e"],
    top_discussions := some [.obj "X" (some 2) 0, .obj "X" (some 3) 0],
    response_quality := none, key_insights := none }

/-- Claim C4 counterexample: combining a result set that contains two
items with identical topic `"X"` (counts 2 and 3) yields *two* entries,
unmerged, unsummed and uncapped — the single-result shortcut of
`combine_results` returns the input unchanged because its `categories`
has at least 5 entries, so no merging by topic takes place. -/
theorem claim_C4_counterexample :
    (combine_results [c4ex]).top_discussions
        = some [.obj "X" (some 2) 0, .obj "X" (some 3) 0] ∧
    ((combine_results [c4ex]).top_discussions.getD []).length = 2 ∧
    (combine_results [c4ex]).top_discussions ≠ some [.obj "X" (some 5) 0] := by
  refine ⟨by decide, by decide, by decide⟩

/-- Claim C4 as amended: *when `combine_results` takes its aggregation
path* (more than one result, or a single result without 5 categories),
`top_discussions` entries are merged by topic with counts summed and
new topics appended — in particular two same-topic entries across two
results merge into one entry carrying the sum — the final list is
truncated to at most 5 entries, and it is sorted by count descending
provided every merged entry is a dict carrying a count (the code sorts
only in that case, exactly as `all(... "count" in t ...)` demands). -/
theorem claim_C4_amended_merge_sort_cap :
    (∀ (T : String) (n1 n2 : Int) (i1 i2 : ℕ) (c1 c2 : Option (List String))
        (q1 q2 : Option RQ) (k1 k2 : Option (List String)),
      (combine_results
        [⟨false, c1, some [.obj T (some n1) i1], q1, k1⟩,
         ⟨false, c2, some [.obj T (some n2) i2], q2, k2⟩]).top_discussions
        = some [.obj T (some (n1 + n2)) i1]) ∧
    (∀ results : List AnalysisResult, TakesMainPath results →
      ((combine_results results).top_discussions.getD []).length ≤ 5 ∧
      ((∀ r ∈ results, r.error = false →
          ∀ t ∈ r.top_discussions.getD [], hasCount t = true) →
        List.Sorted topicGE ((combine_results results).top_discussions.getD []))) := by
  constructor
  · intro T n1 n2 i1 i2 c1 c2 q1 q2 k1 k2
    simp [combine_results, mainCombine, processResult, addTopic, hasTopicKey, bumpFirst,
      hasCount, topicGE, List.insertionSort, List.orderedInsert]
  · intro results hpath
    match results with
    | [] =>
      constructor
      · simp [combine_results_nil, errResult]
      · intro _; simp [combine_results_nil, errResult]
    | [r] =>
      rw [combine_results_singleton r]
      cases hcs : r.categories with
      | some cs =>
        simp only
        rw [if_neg (by have h := hpath cs hcs; omega)]
        exact mainCombine_top_spec [r]
      | none => exact mainCombine_top_spec [r]
    | r1 :: r2 :: rs =>
      rw [combine_results_cons2]
      exact mainCombine_top_spec (r1 :: r2 :: rs)

def c4w1 : AnalysisResult :=
  { error := false, categories := none,
    top_discussions := some [.obj "A" (some 1) 0],
    response_quality := none, key_insights := none }

def c4w2 : AnalysisResult :=
  { error := false, categories := none,
    top_discussions := some [.obj "B" (some 2) 0],
    response_quality := none, key_insights := none }

/-- Witness for the amended C4 at a concrete input. -/
theorem claim_C4_witness :
    TakesMainPath [c4w1, c4w2] ∧
    ((combine_results [c4w1, c4w2]).top_discussions.getD []).length ≤ 5 ∧
    List.Sorted topicGE ((combine_results [c4w1, c4w2]).top_discussions.getD []) :=
  have h : TakesMainPath [c4w1, c4w2] := trivial
  ⟨h, (claim_C4_amended_merge_sort_cap.2 _ h).1,
    (claim_C4_amended_merge_sort_cap.2 _ h).2 (by decide)⟩

/-- Claim C5 counterexample: `analyze_chunks` called with no API key and
mock mode not enabled does *not* fall back to mock data — line 33 of
`claude_analyzer.py` raises `ValueError("Claude API key is required
when not using mock mode")` to the caller. -/
theorem claim_C5_counterexample :
    analyze_chunks (fun _ => generate_mock_analysis) ["some chunk"] none false none
        = .error "Claude API key is required when not using mock mode" ∧
    analyze_chunks (fun _ => generate_mock_analysis) ["some chunk"] none false none
        ≠ .ok [generate_mock_analysis] :=
  ⟨rfl, fun h => Except.noConfusion h⟩

/-- Claim C5 as amended: with no API key (Python `None` or the empty
string) and mock mode not enabled, `analyze_chunks` raises a
`ValueError` to its caller; it is the per-call `analyze_with_claude`
that, handed a falsy API key, returns the fixed mock analysis without
contacting the external service (its `net` body is never invoked). -/
theorem claim_C5_amended_key_guard :
    (∀ (svc : String → AnalysisResult) (chunks : List String) (mc : Option Int),
      analyze_chunks svc chunks none false mc
          = .error "Claude API key is required when not using mock mode" ∧
      analyze_chunks svc chunks (some "") false mc
          = .error "Claude API key is required when not using mock mode") ∧
    (∀ (net : String → String → AnalysisResult) (text : String),
      analyze_with_claude net text none = generate_mock_analysis ∧
      analyze_with_claude net text (some "") = generate_mock_analysis) :=
  ⟨fun _ _ _ => ⟨rfl, rfl⟩, fun _ _ => ⟨rfl, rfl⟩⟩

/-- Claim C6: with mock mode enabled, `analyze_chunks` returns exactly
one mock `AnalysisResult`, whose `categories` list has exactly 6
entries and whose `top_discussions` list has exactly 5 entries. -/
theorem claim_C6_mock_analysis :
    (∀ (svc : String → AnalysisResult) (chunks : List String)
        (api_key : Option String) (mc : Option Int),
      analyze_chunks svc chunks api_key true mc = .ok [generate_mock_analysis]) ∧
    (generate_mock_analysis.categories.getD []).length = 6 ∧
    (generate_mock_analysis.top_discussions.getD []).length = 5 :=
  ⟨fun _ _ _ _ => rfl, rfl, rfl⟩

/-- Claim C10: a call to `combine_results` with exactly one result whose
`categories` field is present with at least 5 entries returns that
result unchanged — the lines 692–697 shortcut fires before any
deduplication, count merging, sorting or capping is applied. -/
theorem claim_C10_shortcut_identity (r : AnalysisResult) (cs : List String)
    (hcs : r.categories = some cs) (h5 : 5 ≤ cs.length) :
    combine_results [r] = r := by
  rw [combine_results_singleton r]
  simp only [hcs]
  rw [if_pos h5]

/-- Concrete input for the C10 witness: 5 categories, 6 key insights
(more than the cap ever allows through the aggregation path) and an
unsorted `top_discussions`. -/
def c10w : AnalysisResult :=
  { error := false, categories := some ["a", "b", "c", "d", "e"],
    top_discussions := some [.obj "low" (some 1) 0, .obj "high" (some 9) 0],
    response_quality := none,
    key_insights := some ["i1", "i2", "i3", "i4", "i5", "i6"] }

/-- Witness for C10 at a concrete input. -/
theorem claim_C10_witness :
    c10w.categories = some ["a", "b", "c", "d", "e"] ∧
    5 ≤ (["a", "b", "c", "d", "e"] : List String).length ∧
    combine_results [c10w] = c10w :=
  ⟨rfl, by decide, claim_C10_shortcut_identity c10w _ rfl (by decide)⟩

/-! ### `thread_storage.py` — data model

The thread index file is the JSON record
`{threads, total_count, analyzed_count, last_updated}`; each thread
entry carries an id, the `analyzed` flag, and the `evidence_for` tag
list (absent tags modelled as `[]`, matching `t.get('analyzed', False)`
reads).  Timestamp fields (`last_updated`, `analyzed_date`,
`created_date`) are wall-clock strings that no claim mentions; they are
left out of the model.  File I/O is modelled as explicit state: reads
that the source performs through `get_thread_content` are an oracle
parameter returning `none` on failure, exactly as that helper returns
`None` when files are missing or unreadable. -/

structure ThreadMeta where
  id : String
  analyzed : Bool
  evidence_for : List String
deriving DecidableEq

structure ThreadIndex where
  threads : List ThreadMeta
  total_count : ℕ
  analyzed_count : ℕ
deriving DecidableEq

/-- The collection loop of `get_unanalyzed_threads` (lines 316–322):
walk the index in order, append each thread not flagged analyzed, and
break as soon as the collected count reaches `count` — the check runs
*after* the append, so `count = 0` still lets one thread through.
`k` is the number already collected (`len(unanalyzed)` before the
append). -/
def collectUnanalyzed (count : ℕ) : List ThreadMeta → ℕ → List ThreadMeta
  | [], _ => []
  | m :: rest, k =>
    if m.analyzed then collectUnanalyzed count rest k
    else if count ≤ k + 1 then [m]
    else m :: collectUnanalyzed count rest (k + 1)

/-- `get_unanalyzed_threads(count)` (lines 295–333).  `content` is the
`get_thread_content` oracle: reading the files of thread `id` yields a
payload or `none`; threads whose content fails to load are dropped from
the returned list.  `get_thread_content` merges the index metadata into
the returned dict (`thread_data.update(thread_meta)`, line 288), so a
returned item is the pair of its payload and its index entry. -/
def get_unanalyzed_threads {α : Type} (content : String → Option α)
    (index : List ThreadMeta) (count : ℕ) : List (ThreadMeta × α) :=
  (collectUnanalyzed count index 0).filterMap fun m => (content m.id).map fun p => (m, p)

/-- The per-entry update of `mark_threads_as_analyzed` (lines 363–375):
an entry whose id is in `thread_ids` gets `analyzed = True`, and — when
a non-empty `evidence_map` is supplied (Python's `if evidence_map:` is
false for `None` *and* for an empty dict) — gets `evidence_for`
*replaced* by the insights whose thread list contains this id
(`items()` in insertion order). -/
def markOne (ids : List String) (em : Option (List (String × List String)))
    (m : ThreadMeta) : ThreadMeta :=
  if m.id ∈ ids then
    { m with
      analyzed := true,
      evidence_for :=
        if (em.getD []).isEmpty then m.evidence_for
        else ((em.getD []).filter fun p => m.id ∈ p.2).map Prod.fst }
  else m

/-- `mark_threads_as_analyzed(thread_ids, evidence_map)` (lines
335–386), acting on the loaded index: an empty id list returns early
without touching the index; otherwise every matching entry is marked
and `analyzed_count` is recomputed as the number of entries whose
`analyzed` flag is set (line 378).  The function's `int` return value
(`count_marked`) is not modelled; the updated index is the result. -/
def mark_threads_as_analyzed (idx : ThreadIndex) (ids : List String)
    (em : Option (List (String × List String))) : ThreadIndex :=
  if ids.isEmpty then idx
  else
    let ts := idx.threads.map (markOne ids em)
    { threads := ts,
      total_count := idx.total_count,
      analyzed_count := ts.countP (·.analyzed) }

/-! ### `get_analysis_stats` (lines 501–579) -/

structure Stats where
  total : ℕ
  analyzed : ℕ
  unanalyzed : ℕ
  percentage : ℚ
deriving DecidableEq

/-- State of the thread index file: parseable JSON or corrupt. -/
inductive IndexFile where
  | valid (idx : ThreadIndex)
  | corrupt
deriving DecidableEq

/-- The file-system state `get_analysis_stats` touches: the index file,
the ids of the `*.txt` thread files in the storage directory (the
`glob` of line 538), and the number of `.bak.<timestamp>` backups taken
so far (the timestamp itself is wall clock and not modelled). -/
structure StorageState where
  indexFile : IndexFile
  diskThreadIds : List String
  backups : ℕ
deriving DecidableEq

/-- Python's `round(x, 1)` modelled as exact rational rounding to one
decimal place; the claims below only exercise the value `0`, where
binary-float rounding and `round`'s half-to-even tie rule coincide
with the exact result. -/
def roundTo1 (q : ℚ) : ℚ := (round (10 * q) : ℤ) / 10

/-- Lines 559–570: totals read back from a (possibly just recovered)
index. -/
def statsOf (threads : List ThreadMeta) : Stats :=
  let total := threads.length
  let analyzed := threads.countP (·.analyzed)
  { total := total,
    analyzed := analyzed,
    unanalyzed := total - analyzed,
    percentage := if 0 < total then roundTo1 ((analyzed : ℚ) * 100 / total) else 0 }

/-- Lines 529–547: the fresh index rebuilt from the on-disk thread
files after a JSON parse failure — one entry per `*.txt` file, never
flagged analyzed. -/
def recoveredIndex (ids : List String) : ThreadIndex :=
  { threads := ids.map fun i => { id := i, analyzed := false, evidence_for := [] },
    total_count := ids.length,
    analyzed_count := 0 }

/-- `get_analysis_stats()` (lines 501–579): a valid index is read and
counted; a corrupt one is backed up with a timestamped suffix, replaced
by an index recovered from the on-disk thread files, written back, and
then counted.  The function is total — the source's outer
`try/except` guarantees a stats dict is always returned. -/
def get_analysis_stats : StorageState → Stats × StorageState
  | ⟨.valid idx, d, b⟩ => (statsOf idx.threads, ⟨.valid idx, d, b⟩)
  | ⟨.corrupt, d, b⟩ =>
    (statsOf (recoveredIndex d).threads, ⟨.valid (recoveredIndex d), d, b + 1⟩)

/-! ### Lemmas about the thread store -/

theorem collectUnanalyzed_length {count : ℕ} :
    ∀ (l : List ThreadMeta) (k : ℕ), k < count →
      (collectUnanalyzed count l k).length ≤ count - k := by
  intro l
  induction l with
  | nil => intro k hk; simp [collectUnanalyzed]
  | cons m rest ih =>
    intro k hk
    rw [collectUnanalyzed]
    split
    · exact ih k hk
    · split
      · simp only [List.length_singleton]
        omega
      · rename_i hbig
        have := ih (k + 1) (by omega)
        simp only [List.length_cons]
        omega

theorem collectUnanalyzed_not_analyzed {count : ℕ} :
    ∀ (l : List ThreadMeta) (k : ℕ), ∀ m ∈ collectUnanalyzed count l k,
      m.analyzed = false := by
  intro l
  induction l with
  | nil => intro k m hm; simp [collectUnanalyzed] at hm
  | cons a rest ih =>
    intro k m hm
    rw [collectUnanalyzed] at hm
    split at hm
    · exact ih k m hm
    · rename_i hana
      split at hm
      · rw [List.mem_singleton] at hm
        subst hm
        simpa using hana
      · rw [List.mem_cons] at hm
        rcases hm with rfl | hm
        · simpa using hana
        · exact ih (k + 1) m hm

theorem collectUnanalyzed_sublist {count : ℕ} :
    ∀ (l : List ThreadMeta) (k : ℕ), (collectUnanalyzed count l k).Sublist l := by
  intro l
  induction l with
  | nil => intro k; simp [collectUnanalyzed]
  | cons a rest ih =>
    intro k
    rw [collectUnanalyzed]
    split
    · exact (ih k).cons a
    · split
      · exact (List.nil_sublist rest).cons₂ a
      · exact (ih (k + 1)).cons₂ a

theorem filterMap_content_fst_sublist {α : Type} (f : String → Option α) :
    ∀ l : List ThreadMeta,
      ((l.filterMap fun m => (f m.id).map fun p => (m, p)).map Prod.fst).Sublist l := by
  intro l
  induction l with
  | nil => simp
  | cons m rest ih =>
    rw [List.filterMap_cons]
    cases hf : (f m.id).map fun p => (m, p) with
    | none => exact ih.cons m
    | some x =>
      obtain ⟨p, -, rfl⟩ := Option.map_eq_some'.mp hf
      rw [List.map_cons]
      exact ih.cons₂ m

/-! ### Claims C7–C9 -/

/-- Claim C7 counterexample: with `count = 0` the break check
`len(unanalyzed) >= count` runs only *after* a thread has been
appended, so `get_unanalyzed_threads(0)` on an index holding one
unanalyzed thread returns that thread — more than the requested
count. -/
theorem claim_C7_counterexample :
    (get_unanalyzed_threads (fun _ => some ()) [⟨"t1", false, []⟩] 0).length = 1 ∧
    ¬(get_unanalyzed_threads (fun _ => some ()) [⟨"t1", false, []⟩] 0).length ≤ 0 := by
  constructor
  · rfl
  · decide

/-- Claim C7 as amended: for every requested count `n ≥ 1` (the count
`0` overshoots by one, as the counterexample shows),
`get_unanalyzed_threads` returns at most `n` threads, never returns a
thread whose `analyzed` flag is set in the index snapshot, and returns
them in index order (the metadata of the returned items form a
sublist of the index). -/
theorem claim_C7_amended_unanalyzed_cap {α : Type} (content : String → Option α)
    (index : List ThreadMeta) (count : ℕ) (hc : 1 ≤ count) :
    (get_unanalyzed_threads content index count).length ≤ count ∧
    (∀ x ∈ get_unanalyzed_threads content index count, x.1.analyzed = false) ∧
    ((get_unanalyzed_threads content index count).map Prod.fst).Sublist index := by
  refine ⟨?_, ?_, ?_⟩
  · calc (get_unanalyzed_threads content index count).length
        ≤ (collectUnanalyzed count index 0).length := List.length_filterMap_le _ _
      _ ≤ count - 0 := collectUnanalyzed_length index 0 (by omega)
      _ ≤ count := by omega
  · intro x hx
    rw [get_unanalyzed_threads, List.mem_filterMap] at hx
    obtain ⟨m, hm, hmx⟩ := hx
    obtain ⟨p, -, rfl⟩ := Option.map_eq_some'.mp hmx
    exact collectUnanalyzed_not_analyzed index 0 m hm
  · exact (filterMap_content_fst_sublist content _).trans
      (collectUnanalyzed_sublist index 0)

/-- Witness for the amended C7 at a concrete input. -/
theorem claim_C7_witness :
    1 ≤ 1 ∧
    ((get_unanalyzed_threads (fun _ => some 7)
        [⟨"a", true, []⟩, ⟨"b", false, []⟩] 1).length ≤ 1 ∧
      (∀ x ∈ get_unanalyzed_threads (fun _ => some 7)
        [⟨"a", true, []⟩, ⟨"b", false, []⟩] 1, x.1.analyzed = false) ∧
      ((get_unanalyzed_threads (fun _ => some 7)
        [⟨"a", true, []⟩, ⟨"b", false, []⟩] 1).map Prod.fst).Sublist
        [⟨"a", true, []⟩, ⟨"b", false, []⟩]) :=
  ⟨by decide,
    claim_C7_amended_unanalyzed_cap (fun _ => some 7)
      [⟨"a", true, []⟩, ⟨"b", false, []⟩] 1 (by decide)⟩

theorem markOne_idem (ids : List String) (em : Option (List (String × List String)))
    (m : ThreadMeta) : markOne ids em (markOne ids em m) = markOne ids em m := by
  by_cases hm : m.id ∈ ids
  · simp [markOne, hm]
    intro h
    rw [if_neg h]
  · simp [markOne, hm]

/-- Claim C8: `mark_threads_as_analyzed` is idempotent with respect to
the analyzed count — a second call with the same ids (and the same
evidence map) leaves `analyzed_count` unchanged.  In fact the whole
modelled index is unchanged by the second call: each per-entry update
is idempotent and `analyzed_count` is recomputed from the entries. -/
theorem claim_C8_mark_idempotent (idx : ThreadIndex) (ids : List String)
    (em : Option (List (String × List String))) :
    (mark_threads_as_analyzed (mark_threads_as_analyzed idx ids em) ids em).analyzed_count
      = (mark_threads_as_analyzed idx ids em).analyzed_count := by
  by_cases hids : ids.isEmpty
  · rw [mark_threads_as_analyzed, if_pos hids, mark_threads_as_analyzed, if_pos hids]
  · rw [mark_threads_as_analyzed, if_neg hids, mark_threads_as_analyzed, if_neg hids]
    simp only [List.map_map]
    have hcomp : markOne ids em ∘ markOne ids em = markOne ids em :=
      funext fun m => markOne_idem ids em m
    rw [hcomp]

theorem stats_corrupt_eq (d : List String) (b : ℕ) :
    get_analysis_stats ⟨.corrupt, d, b⟩ =
      (⟨d.length, 0, d.length, 0⟩, ⟨.valid (recoveredIndex d), d, b + 1⟩) := by
  have hstep : get_analysis_stats ⟨.corrupt, d, b⟩ =
      (statsOf (recoveredIndex d).threads, ⟨.valid (recoveredIndex d), d, b + 1⟩) := rfl
  rw [hstep]
  have hcount : (recoveredIndex d).threads.countP (·.analyzed) = 0 := by
    simp [recoveredIndex, List.countP_eq_zero]
  have hlen : (recoveredIndex d).threads.length = d.length := by
    simp [recoveredIndex]
  rw [Prod.mk.injEq]
  refine ⟨?_, rfl⟩
  rw [statsOf]
  simp only [hcount, hlen]
  rw [Stats.mk.injEq]
  refine ⟨rfl, rfl, rfl, ?_⟩
  split
  · simp [roundTo1]
  · rfl

/-- Claim C9 counterexample: with a corrupt index file but one thread
file `t1.txt` on disk, `get_analysis_stats` recovers that thread and
returns `{total: 1, analyzed: 0, unanalyzed: 1, percentage: 0}` — not
the all-zero record the claim promises for every corrupt-index state. -/
theorem claim_C9_counterexample :
    (get_analysis_stats ⟨.corrupt, ["t1"], 0⟩).1 = ⟨1, 0, 1, 0⟩ ∧
    (get_analysis_stats ⟨.corrupt, ["t1"], 0⟩).1 ≠ ⟨0, 0, 0, 0⟩ := by
  rw [stats_corrupt_eq]
  refine ⟨rfl, ?_⟩
  intro h
  rw [Stats.mk.injEq] at h
  simp at h

/-- Claim C9 as amended: on a corrupt index file `get_analysis_stats`
does not raise — it backs up the corrupt file (one more backup in the
resulting state), reconstructs the index from the on-disk thread files,
writes it back, and returns
`{total: n, analyzed: 0, unanalyzed: n, percentage: 0}` where `n` is
the number of on-disk thread files; this is the all-zero record exactly
when the storage directory holds no thread files. -/
theorem claim_C9_amended_corrupt_recovery (d : List String) (b : ℕ) :
    get_analysis_stats ⟨.corrupt, d, b⟩ =
      (⟨d.length, 0, d.length, 0⟩, ⟨.valid (recoveredIndex d), d, b + 1⟩) :=
  stats_corrupt_eq d b
